import Mathlib

set_option maxRecDepth 8000

/-!
Verification of the authentication-credential extraction and
principal-resolution subsystem of the `h` repository.

The repository slice contains `h/auth/local/schemas.py` (username
blacklist and registration validators) together with the test module
`tests/h/auth/util_test.py` for `h.auth.util`.  The module
`h.auth.util` itself (credential parsing, principal resolution, group
finding, principal translation) is not part of the slice, so its
operations are modelled from the specification; the blacklist and
validator logic is embedded directly from `schemas.py`.
-/

namespace HAuth

/-! ## Data model -/

/-- A group reference: `GroupRef` from the data model, `FakeGroup(pubid)`
in the tests.  `public_identifier` is the group's public identifier. -/
structure GroupRef where
  public_identifier : String
deriving DecidableEq, Repr

/-- A user record: attributes `admin`, `staff` and the ordered sequence
of groups the user belongs to. -/
structure UserRecord where
  admin : Bool
  staff : Bool
  groups : List GroupRef
deriving DecidableEq, Repr

/-- Modelled from the spec: the fixed Admin role token (`role.Admin` in
the code base; an opaque text token, fixed but arbitrary here). -/
def RoleAdmin : String := "group:__admin__"

/-- Modelled from the spec: the fixed Staff role token (`role.Staff`). -/
def RoleStaff : String := "group:__staff__"

/-- The canonical "everyone" principal (`pyramid.security.Everyone`,
which is the string `"system.Everyone"`). -/
def Everyone : String := "system.Everyone"

/-! ## PrincipalResolver -/

/-- Modelled from the spec: `principals_for_user` from the missing
module `h.auth.util`.  If the user is absent, returns absent; otherwise
the union of `{RoleAdmin}` iff `user.admin`, `{RoleStaff}` iff
`user.staff`, and `"group:" ++ g.public_identifier` for every group `g`
in `user.groups`. -/
def principals_for_user (user : Option UserRecord) : Option (Finset String) :=
  match user with
  | none => none
  | some u =>
      some ((if u.admin then {RoleAdmin} else (∅ : Finset String)) ∪
            (if u.staff then {RoleStaff} else (∅ : Finset String)) ∪
            (u.groups.map (fun g => "group:" ++ g.public_identifier)).toFinset)

/-! ## PrincipalTranslator -/

/-- Modelled from the spec: the per-token rewrite rule of
`translate_annotation_principals`: drop the reserved system markers,
remap the legacy world-group marker to the canonical everyone
principal, and pass every other token through unchanged. -/
def translatePrincipal (p : String) : Option String :=
  if p = "system.Everyone" ∨ p = "system.Admins" then none
  else if p = "group:__world__" then some Everyone
  else some p

/-- Modelled from the spec: `translate_annotation_principals` from the
missing module `h.auth.util`: apply the rewrite table per token and
return the deduplicated set of results. -/
def translate_annotation_principals (principals : List String) : Finset String :=
  (principals.filterMap translatePrincipal).toFinset

/-! ## CredentialParser

`basic_auth_creds` is modelled from the spec: a pure decode-and-split
of a Basic HTTP Authorization header.  Bytes are naturals `< 256`;
base64 (RFC 4648 standard alphabet, as `base64.standard_b64decode`)
and strict UTF-8 are embedded executably. -/

/-- The RFC 4648 standard base64 alphabet. -/
def b64Alphabet : List Char :=
  ['A', 'B', 'C', 'D', 'E', 'F', 'G', 'H', 'I', 'J', 'K', 'L', 'M',
   'N', 'O', 'P', 'Q', 'R', 'S', 'T', 'U', 'V', 'W', 'X', 'Y', 'Z',
   'a', 'b', 'c', 'd', 'e', 'f', 'g', 'h', 'i', 'j', 'k', 'l', 'm',
   'n', 'o', 'p', 'q', 'r', 's', 't', 'u', 'v', 'w', 'x', 'y', 'z',
   '0', '1', '2', '3', '4', '5', '6', '7', '8', '9', '+', '/']

/-- The base64 digit for a sextet value. -/
def b64Char (n : Nat) : Char := b64Alphabet.getD n 'A'

/-- The sextet value of a base64 digit, absent for characters outside
the alphabet. -/
def b64Index (c : Char) : Option Nat := b64Alphabet.findIdx? (· = c)

/-- Standard base64 encoding of a byte sequence, with `=` padding
(`base64.standard_b64encode`). -/
def b64Encode : List Nat → List Char
  | [] => []
  | [a] => [b64Char (a / 4), b64Char (a % 4 * 16), '=', '=']
  | [a, b] => [b64Char (a / 4), b64Char (a % 4 * 16 + b / 16),
               b64Char (b % 16 * 4), '=']
  | a :: b :: c :: rest =>
      b64Char (a / 4) :: b64Char (a % 4 * 16 + b / 16) ::
      b64Char (b % 16 * 4 + c / 64) :: b64Char (c % 64) :: b64Encode rest

/-- Standard base64 decoding (`base64.standard_b64decode`): absent on
any input that is not a padded four-character-block encoding. -/
def b64Decode : List Char → Option (List Nat)
  | [] => some []
  | c0 :: c1 :: c2 :: c3 :: rest =>
      match b64Index c0, b64Index c1 with
      | some n0, some n1 =>
          if c2 = '=' then
            if c3 = '=' ∧ rest = [] then some [n0 * 4 + n1 / 16] else none
          else
            match b64Index c2 with
            | some n2 =>
                if c3 = '=' then
                  if rest = [] then
                    some [n0 * 4 + n1 / 16, n1 % 16 * 16 + n2 / 4]
                  else none
                else
                  match b64Index c3 with
                  | some n3 =>
                      (b64Decode rest).map
                        (fun bs => (n0 * 4 + n1 / 16) :: (n1 % 16 * 16 + n2 / 4) ::
                                   (n2 % 4 * 64 + n3) :: bs)
                  | none => none
            | none => none
      | _, _ => none
  | _ => none

/-- UTF-8 encoding of one Unicode scalar value. -/
def utf8EncodeScalar (n : Nat) : List Nat :=
  if n < 0x80 then [n]
  else if n < 0x800 then [0xC0 + n / 64, 0x80 + n % 64]
  else if n < 0x10000 then [0xE0 + n / 4096, 0x80 + n / 64 % 64, 0x80 + n % 64]
  else [0xF0 + n / 262144, 0x80 + n / 4096 % 64, 0x80 + n / 64 % 64,
        0x80 + n % 64]

/-- UTF-8 encoding of a character sequence (`text.encode('utf-8')`). -/
def utf8Encode (s : List Char) : List Nat :=
  s.flatMap (fun c => utf8EncodeScalar c.toNat)

/-- The scalar value of a two-byte UTF-8 sequence, absent when the
continuation byte is out of range (overlong forms are already excluded
by the lead-byte dispatch, which rejects leads below 0xC2). -/
def utf8Scalar2 (b0 b1 : Nat) : Option Nat :=
  if 0x80 ≤ b1 ∧ b1 < 0xC0 then
    some ((b0 - 0xC0) * 64 + (b1 - 0x80))
  else none

/-- The scalar value of a three-byte UTF-8 sequence, absent on
out-of-range continuation bytes, overlong forms and surrogates. -/
def utf8Scalar3 (b0 b1 b2 : Nat) : Option Nat :=
  if (0x80 ≤ b1 ∧ b1 < 0xC0) ∧ (0x80 ≤ b2 ∧ b2 < 0xC0) then
    if 0x800 ≤ (b0 - 0xE0) * 4096 + (b1 - 0x80) * 64 + (b2 - 0x80) ∧
       ¬ (0xD800 ≤ (b0 - 0xE0) * 4096 + (b1 - 0x80) * 64 + (b2 - 0x80) ∧
          (b0 - 0xE0) * 4096 + (b1 - 0x80) * 64 + (b2 - 0x80) ≤ 0xDFFF) then
      some ((b0 - 0xE0) * 4096 + (b1 - 0x80) * 64 + (b2 - 0x80))
    else none
  else none

/-- The scalar value of a four-byte UTF-8 sequence, absent on
out-of-range continuation bytes, overlong forms and values beyond
0x10FFFF. -/
def utf8Scalar4 (b0 b1 b2 b3 : Nat) : Option Nat :=
  if (0x80 ≤ b1 ∧ b1 < 0xC0) ∧ (0x80 ≤ b2 ∧ b2 < 0xC0) ∧
     (0x80 ≤ b3 ∧ b3 < 0xC0) then
    if 0x10000 ≤ (b0 - 0xF0) * 262144 + (b1 - 0x80) * 4096 +
         (b2 - 0x80) * 64 + (b3 - 0x80) ∧
       (b0 - 0xF0) * 262144 + (b1 - 0x80) * 4096 +
         (b2 - 0x80) * 64 + (b3 - 0x80) < 0x110000 then
      some ((b0 - 0xF0) * 262144 + (b1 - 0x80) * 4096 +
        (b2 - 0x80) * 64 + (b3 - 0x80))
    else none
  else none

/-- Decode the leading scalar of a UTF-8 byte stream from its lead
byte `b0` and the following bytes: the decoded character together with
the number of continuation bytes consumed.  Absent on stray
continuation bytes, invalid leads, truncation, overlong forms,
surrogates and out-of-range scalars. -/
def utf8DecodeOne (b0 : Nat) (rest : List Nat) : Option (Char × Nat) :=
  if b0 < 0x80 then some (Char.ofNat b0, 0)
  else if b0 < 0xC2 then none
  else if b0 < 0xE0 then
    match rest with
    | b1 :: _ => (utf8Scalar2 b0 b1).map (fun v => (Char.ofNat v, 1))
    | [] => none
  else if b0 < 0xF0 then
    match rest with
    | b1 :: b2 :: _ => (utf8Scalar3 b0 b1 b2).map (fun v => (Char.ofNat v, 2))
    | _ => none
  else if b0 < 0xF5 then
    match rest with
    | b1 :: b2 :: b3 :: _ =>
        (utf8Scalar4 b0 b1 b2 b3).map (fun v => (Char.ofNat v, 3))
    | _ => none
  else none

/-- Strict UTF-8 decoding of a byte sequence
(`bytes.decode('utf-8')`): absent whenever any leading scalar fails to
decode. -/
def utf8Decode : List Nat → Option (List Char)
  | [] => some []
  | b0 :: rest =>
      match utf8DecodeOne b0 rest with
      | some (c, k) => (utf8Decode (rest.drop k)).map (fun cs => c :: cs)
      | none => none
termination_by l => l.length
decreasing_by simp [List.length_drop]; omega

/-- Split on the first `:` (`text.split(':', 1)` unpacked into exactly
two parts): absent when the text contains no colon. -/
def splitOnFirstColon : List Char → Option (List Char × List Char)
  | [] => none
  | c :: rest =>
      if c = ':' then some ([], rest)
      else (splitOnFirstColon rest).map (fun p => (c :: p.1, p.2))

/-- Modelled from the spec: `basic_auth_creds` from the missing module
`h.auth.util`.  The request's authorization is absent or a
scheme/base64-payload pair; the parser returns absent unless the
scheme is exactly `"Basic"`, the payload decodes as base64 then UTF-8,
and the text splits on a colon; then the part before the first colon
is the username and the rest the password. -/
def basic_auth_creds (authorization : Option (String × List Char)) :
    Option (String × String) :=
  match authorization with
  | none => none
  | some (authtype, value) =>
      if authtype = "Basic" then
        match b64Decode value with
        | none => none
        | some bytes =>
            match utf8Decode bytes with
            | none => none
            | some chars =>
                match splitOnFirstColon chars with
                | none => none
                | some (u, p) => some (⟨u⟩, ⟨p⟩)
      else none

/-! ## GroupFinder -/

/-- The external user-lookup service: a single capability `fetch`
mapping a user identifier to a user record or absent. -/
structure UserService where
  fetch : String → Option UserRecord

/-- Modelled from the spec: calling the user service's `fetch`,
recording the call in an explicit call log so the number and arguments
of service invocations are observable. -/
def fetchUser (svc : UserService) (userid : String) :
    StateM (List String) (Option UserRecord) := fun log =>
  (svc.fetch userid, log ++ [userid])

/-- Modelled from the spec: `groupfinder` from the missing module
`h.auth.util`: fetch the user record from the user service and pass it
to `principals_for_user`, returning its result unchanged. -/
def groupfinder (svc : UserService) (userid : String) :
    StateM (List String) (Option (Finset String)) := do
  let user ← fetchUser svc userid
  return principals_for_user user

end HAuth

namespace HSchemas

/-! ## schemas.py: username blacklist and registration validators -/

/-- The UI string `Str.registration_username_exists` raised by both
`unique_username` and `unblacklisted_username` (an opaque message drawn
from the registry's `IUIStrings` utility). -/
def registration_username_exists : String :=
  "Sorry, an account with this username already exists."

/-- ASCII lowercasing, `text.lower()` (applied character-wise, as the
source applies it to blacklist entries and candidate usernames). -/
def pyLower (s : String) : String := ⟨s.data.map Char.toLower⟩

/-- Whitespace as recognised by `text.strip()`. -/
def isPySpace (c : Char) : Bool :=
  c = ' ' || c = '\t' || c = '\n' || c = '\r' || c = '\x0b' || c = '\x0c'

/-- `text.strip()`: remove leading and trailing whitespace. -/
def pyStrip (s : String) : String :=
  ⟨((s.data.dropWhile isPySpace).reverse.dropWhile isPySpace).reverse⟩

/-- From `schemas.py` `get_blacklist`: the blacklist built from the
lines of the packaged `blacklist` resource, `l.strip().lower()` for
each line `l`, collected into a set. -/
def loadBlacklist (resource : List String) : Finset String :=
  (resource.map (fun l => pyLower (pyStrip l))).toFinset

/-- From `schemas.py` `get_blacklist`: the lazily-initialised global
`USERNAME_BLACKLIST`.  The global mutable cell is made explicit: the
function takes the current value of `USERNAME_BLACKLIST` (`none` when
not yet populated) and returns the blacklist together with the new
value of the global. -/
def get_blacklist (resource : List String)
    (cache : Option (Finset String)) : Finset String × Option (Finset String) :=
  match cache with
  | some bl => (bl, some bl)
  | none =>
      let bl := loadBlacklist resource
      (bl, some bl)

/-- From `schemas.py` `unique_username`: raises
`colander.Invalid(node, Str.registration_username_exists)` when the
database contains a username matching `value` case-insensitively
(`User.username.ilike(value)`), modelled over the list of existing
usernames. -/
def unique_username (existing : List String) (value : String) :
    Except String Unit :=
  if (existing.filter (fun u => pyLower u = pyLower value)).length ≠ 0 then
    .error registration_username_exists
  else
    .ok ()

/-- From `schemas.py` `unblacklisted_username`: raises
`colander.Invalid(node, Str.registration_username_exists)` when
`value.lower()` is in the blacklist. -/
def unblacklisted_username (blacklist : Finset String) (value : String) :
    Except String Unit :=
  if pyLower value ∈ blacklist then
    .error registration_username_exists
  else
    .ok ()

end HSchemas

namespace HAuth

/-! ## Theorems: principal resolution and translation -/

/-- C1: for every present user record, `principals_for_user` returns
exactly the union of `{RoleAdmin}` iff `user.admin`, `{RoleStaff}` iff
`user.staff`, and `"group:" ++ g.public_identifier` for each group `g`
in `user.groups`; in particular a user with `admin = false`,
`staff = false`, `groups = []` yields the empty set. -/
theorem principals_for_user_exact (u : UserRecord) (p : String) :
    (∃ s, principals_for_user (some u) = some s ∧
      (p ∈ s ↔ (u.admin = true ∧ p = RoleAdmin) ∨ (u.staff = true ∧ p = RoleStaff) ∨
        ∃ g ∈ u.groups, p = "group:" ++ g.public_identifier)) ∧
    principals_for_user (some ⟨false, false, []⟩) = some ∅ := by
  refine ⟨⟨_, rfl, ?_⟩, by simp [principals_for_user]⟩
  cases hu : u.admin <;> cases hs : u.staff <;>
    simp [principals_for_user, hu, hs, List.mem_toFinset, List.mem_map, eq_comm,
      and_comm, or_comm]

/-- C6: `principals_for_user` applied to an absent user record returns
absent, a value distinct from the empty principal set. -/
theorem principals_for_user_absent :
    principals_for_user none = none ∧
      principals_for_user none ≠ some (∅ : Finset String) :=
  ⟨rfl, by simp [principals_for_user]⟩

/-- The per-token rewrite rule, characterised: a token `p` produces an
output token `q` exactly when `p` is non-special and passes through
unchanged, or `p` is the legacy world marker and `q` the canonical
everyone principal. -/
theorem translatePrincipal_eq_some (p q : String) :
    translatePrincipal p = some q ↔
      (p ≠ "system.Everyone" ∧ p ≠ "system.Admins" ∧
        p ≠ "group:__world__" ∧ q = p) ∨
      (p = "group:__world__" ∧ q = Everyone) := by
  rw [translatePrincipal]
  by_cases h1 : p = "system.Everyone"
  · simp [h1, Everyone]
  · by_cases h2 : p = "system.Admins"
    · simp [h1, h2]
    · by_cases h3 : p = "group:__world__"
      · simp [h1, h2, h3, eq_comm]
      · simp [h1, h2, h3, eq_comm]

/-- C2: `translate_annotation_principals` returns exactly the
deduplicated set obtained per token by dropping `"system.Everyone"` and
`"system.Admins"`, remapping `"group:__world__"` to the canonical
everyone principal, and passing every other token through unchanged;
the empty input yields the empty set. -/
theorem translate_annotation_principals_exact (ps : List String) (q : String) :
    (q ∈ translate_annotation_principals ps ↔
      (∃ p ∈ ps, p ≠ "system.Everyone" ∧ p ≠ "system.Admins" ∧
        p ≠ "group:__world__" ∧ q = p) ∨
      ("group:__world__" ∈ ps ∧ q = Everyone)) ∧
    translate_annotation_principals [] = ∅ := by
  refine ⟨?_, rfl⟩
  simp only [translate_annotation_principals, List.mem_toFinset, List.mem_filterMap,
    translatePrincipal_eq_some]
  constructor
  · rintro ⟨p, hp, ⟨h1, h2, h3, he⟩ | ⟨hw, he⟩⟩
    · exact Or.inl ⟨p, hp, h1, h2, h3, he⟩
    · exact Or.inr ⟨hw ▸ hp, he⟩
  · rintro (⟨p, hp, h1, h2, h3, he⟩ | ⟨hw, he⟩)
    · exact ⟨p, hp, Or.inl ⟨h1, h2, h3, he⟩⟩
    · exact ⟨"group:__world__", hw, Or.inr ⟨rfl, he⟩⟩

/-- C7: every input token that is not one of the three special tokens
appears unchanged in the output of `translate_annotation_principals`:
the translator never drops or alters non-special tokens. -/
theorem translate_annotation_principals_preserves (ps : List String) (p : String)
    (hmem : p ∈ ps) (h1 : p ≠ "system.Everyone") (h2 : p ≠ "system.Admins")
    (h3 : p ≠ "group:__world__") :
    p ∈ translate_annotation_principals ps := by
  simp only [translate_annotation_principals, List.mem_toFinset, List.mem_filterMap]
  exact ⟨p, hmem, (translatePrincipal_eq_some p p).2 (Or.inl ⟨h1, h2, h3, rfl⟩)⟩

/-- Witness for C7 at the concrete token `"acct:donna@example.com"` in
a one-element input list. -/
theorem translate_annotation_principals_preserves_witness :
    "acct:donna@example.com" ∈ (["acct:donna@example.com"] : List String) ∧
    "acct:donna@example.com" ≠ "system.Everyone" ∧
    "acct:donna@example.com" ≠ "system.Admins" ∧
    "acct:donna@example.com" ≠ "group:__world__" ∧
    "acct:donna@example.com" ∈
      translate_annotation_principals ["acct:donna@example.com"] :=
  ⟨by decide, by decide, by decide, by decide,
   translate_annotation_principals_preserves _ _ (by decide) (by decide)
     (by decide) (by decide)⟩

/-- C5: `groupfinder` calls the user service's `fetch` exactly once,
with the given identifier, and returns exactly
`principals_for_user (svc.fetch userid)`, encoding no role logic of
its own. -/
theorem groupfinder_fetch_once (svc : UserService) (userid : String)
    (log : List String) :
    (groupfinder svc userid).run log =
      (principals_for_user (svc.fetch userid), log ++ [userid]) := rfl

end HAuth

namespace HSchemas

/-! ## Theorems: blacklist and registration validators -/

/-- C8: blacklist matching is case-insensitive: entries are stripped
and lowercased when loaded and the candidate is lowercased before the
membership test, so a username is rejected if and only if its
lowercased form equals the lowercased, stripped form of some blacklist
entry. -/
theorem unblacklisted_username_case_insensitive (resource : List String)
    (value : String) :
    unblacklisted_username (get_blacklist resource none).1 value =
        .error registration_username_exists ↔
      ∃ l ∈ resource, pyLower value = pyLower (pyStrip l) := by
  show unblacklisted_username (loadBlacklist resource) value = _ ↔ _
  rw [unblacklisted_username]
  by_cases hm : pyLower value ∈ loadBlacklist resource
  · rw [if_pos hm]
    simp only [loadBlacklist, List.mem_toFinset, List.mem_map] at hm
    obtain ⟨l, hl, he⟩ := hm
    exact iff_of_true rfl ⟨l, hl, he.symm⟩
  · rw [if_neg hm]
    constructor
    · intro h
      cases h
    · rintro ⟨l, hl, he⟩
      exact absurd (by
        simp only [loadBlacklist, List.mem_toFinset, List.mem_map]
        exact ⟨l, hl, he.symm⟩) hm

/-- C9: a blacklisted username is indistinguishable from a taken one:
whenever `unique_username` raises and whenever `unblacklisted_username`
raises, both raise the same `registration_username_exists` message. -/
theorem validators_same_error (existing : List String) (blacklist : Finset String)
    (v1 v2 e1 e2 : String)
    (h1 : unique_username existing v1 = .error e1)
    (h2 : unblacklisted_username blacklist v2 = .error e2) :
    e1 = registration_username_exists ∧ e2 = registration_username_exists ∧
      e1 = e2 := by
  rw [unique_username] at h1
  rw [unblacklisted_username] at h2
  by_cases ha : (existing.filter (fun u => pyLower u = pyLower v1)).length ≠ 0
  · rw [if_pos ha] at h1
    by_cases hb : pyLower v2 ∈ blacklist
    · rw [if_pos hb] at h2
      injection h1 with h1'
      injection h2 with h2'
      exact ⟨h1'.symm, h2'.symm, h1'.symm.trans h2'⟩
    · rw [if_neg hb] at h2
      cases h2
  · rw [if_neg ha] at h1
    cases h1

/-- Witness for C9: the username `"Bob"` is taken (case-insensitively,
by `"bob"`) and the username `"ADMIN"` is blacklisted (by the entry
`"Admin\n"`); both validators raise the same message. -/
theorem validators_same_error_witness :
    unique_username ["bob"] "Bob" = .error registration_username_exists ∧
    unblacklisted_username (loadBlacklist ["Admin\n"]) "ADMIN" =
      .error registration_username_exists ∧
    (registration_username_exists = registration_username_exists ∧
     registration_username_exists = registration_username_exists ∧
     registration_username_exists = registration_username_exists) :=
  ⟨rfl, rfl,
   validators_same_error ["bob"] (loadBlacklist ["Admin\n"]) "Bob" "ADMIN"
     registration_username_exists registration_username_exists rfl rfl⟩

/-- C10: `get_blacklist` is idempotent across calls: the first call
populates the cache from the blacklist resource, and a second call
started from the state left by any call returns the identical result
and state. -/
theorem get_blacklist_idempotent (resource resource2 : List String)
    (bl : Finset String) (cache : Option (Finset String)) :
    get_blacklist resource none =
        (loadBlacklist resource, some (loadBlacklist resource)) ∧
    get_blacklist resource2 (some bl) = (bl, some bl) ∧
    get_blacklist resource (get_blacklist resource cache).2 =
        get_blacklist resource cache := by
  refine ⟨rfl, rfl, ?_⟩
  cases cache <;> rfl

end HSchemas

namespace HAuth

/-! ## Theorems: credential parsing -/

/-- The base64 digit table inverts its own encoding on sextets. -/
theorem b64Index_b64Char : ∀ n < 64, b64Index (b64Char n) = some n := by decide

/-- No base64 digit is the padding character. -/
theorem b64Char_ne_pad : ∀ n < 64, b64Char n ≠ '=' := by decide

/-- Base64 decoding inverts base64 encoding on byte sequences. -/
theorem b64Decode_b64Encode : ∀ bs : List Nat, (∀ b ∈ bs, b < 256) →
    b64Decode (b64Encode bs) = some bs
  | [], _ => rfl
  | [a], h => by
      have ha : a < 256 := h a (by simp)
      have h0 := b64Index_b64Char (a / 4) (by omega)
      have h1 := b64Index_b64Char (a % 4 * 16) (by omega)
      simp only [b64Encode, b64Decode, h0, h1, and_self, if_true]
      have e1 : a / 4 * 4 + a % 4 * 16 / 16 = a := by omega
      rw [e1]
  | [a, b], h => by
      have ha : a < 256 := h a (by simp)
      have hb : b < 256 := h b (by simp)
      have h0 := b64Index_b64Char (a / 4) (by omega)
      have h1 := b64Index_b64Char (a % 4 * 16 + b / 16) (by omega)
      have h2 := b64Index_b64Char (b % 16 * 4) (by omega)
      have hne := b64Char_ne_pad (b % 16 * 4) (by omega)
      simp only [b64Encode, b64Decode, h0, h1, h2]
      rw [if_neg hne]
      simp only [if_true]
      have e1 : a / 4 * 4 + (a % 4 * 16 + b / 16) / 16 = a := by omega
      have e2 : (a % 4 * 16 + b / 16) % 16 * 16 + b % 16 * 4 / 4 = b := by omega
      rw [e1, e2]
  | a :: b :: c :: rest, h => by
      have ha : a < 256 := h a (by simp)
      have hb : b < 256 := h b (by simp)
      have hc : c < 256 := h c (by simp)
      have ih := b64Decode_b64Encode rest (fun x hx => h x (by simp [hx]))
      have h0 := b64Index_b64Char (a / 4) (by omega)
      have h1 := b64Index_b64Char (a % 4 * 16 + b / 16) (by omega)
      have h2 := b64Index_b64Char (b % 16 * 4 + c / 64) (by omega)
      have h3 := b64Index_b64Char (c % 64) (by omega)
      have hne2 := b64Char_ne_pad (b % 16 * 4 + c / 64) (by omega)
      have hne3 := b64Char_ne_pad (c % 64) (by omega)
      simp only [b64Encode, b64Decode, h0, h1, h2, h3]
      rw [if_neg hne2, if_neg hne3, ih]
      have e1 : a / 4 * 4 + (a % 4 * 16 + b / 16) / 16 = a := by omega
      have e2 : (a % 4 * 16 + b / 16) % 16 * 16 + (b % 16 * 4 + c / 64) / 4 = b := by
        omega
      have e3 : (b % 16 * 4 + c / 64) % 4 * 64 + c % 64 = c := by omega
      simp only [Option.map_some']
      rw [e1, e2, e3]

end HAuth

namespace HAuth

/-- Unicode scalar values of characters are valid: below the surrogate
range, or above it and below 0x110000. -/
theorem char_toNat_valid (c : Char) :
    c.toNat < 0xD800 ∨ (0xDFFF < c.toNat ∧ c.toNat < 0x110000) := c.valid

/-- Every byte of a UTF-8 encoding is below 256. -/
theorem utf8Encode_lt (s : List Char) : ∀ b ∈ utf8Encode s, b < 256 := by
  induction s with
  | nil =>
      intro b hb
      simp [utf8Encode] at hb
  | cons c cs ih =>
      intro b hb
      rw [utf8Encode, List.flatMap_cons] at hb
      rcases List.mem_append.mp hb with hmem | hmem
      · have hv := char_toNat_valid c
        rw [utf8EncodeScalar] at hmem
        split_ifs at hmem with h1 h2 h3 <;>
          simp only [List.mem_cons, List.not_mem_nil, or_false] at hmem <;>
          omega
      · exact ih b hmem

/-- Two-byte scalar decoding inverts the encoding. -/
theorem utf8Scalar2_encode (n : Nat) (h1 : 0x80 ≤ n) (h2 : n < 0x800) :
    utf8Scalar2 (0xC0 + n / 64) (0x80 + n % 64) = some n := by
  rw [utf8Scalar2, if_pos (by omega)]
  congr 1
  omega

/-- Three-byte scalar decoding inverts the encoding. -/
theorem utf8Scalar3_encode (n : Nat) (h1 : 0x800 ≤ n) (h2 : n < 0x10000)
    (h3 : ¬ (0xD800 ≤ n ∧ n ≤ 0xDFFF)) :
    utf8Scalar3 (0xE0 + n / 4096) (0x80 + n / 64 % 64) (0x80 + n % 64) =
      some n := by
  rw [utf8Scalar3, if_pos (by omega), if_pos (by omega)]
  congr 1
  omega

/-- Four-byte scalar decoding inverts the encoding. -/
theorem utf8Scalar4_encode (n : Nat) (h1 : 0x10000 ≤ n) (h2 : n < 0x110000) :
    utf8Scalar4 (0xF0 + n / 262144) (0x80 + n / 4096 % 64)
      (0x80 + n / 64 % 64) (0x80 + n % 64) = some n := by
  rw [utf8Scalar4, if_pos (by omega), if_pos (by omega)]
  congr 1
  omega

/-- Decoding a UTF-8 stream that starts with the encoding of one
character yields that character and decodes the remainder. -/
theorem utf8Decode_encodeScalar_append (c : Char) (rest : List Nat) :
    utf8Decode (utf8EncodeScalar c.toNat ++ rest) =
      (utf8Decode rest).map (fun cs => c :: cs) := by
  have hv := char_toNat_valid c
  have hofNat := Char.ofNat_toNat c
  rw [utf8EncodeScalar]
  by_cases h1 : c.toNat < 0x80
  · rw [if_pos h1]
    simp only [List.cons_append, List.nil_append]
    have hone : utf8DecodeOne c.toNat rest = some (c, 0) := by
      rw [utf8DecodeOne.eq_def, if_pos h1, hofNat]
    simp only [utf8Decode, hone, List.drop_zero]
  · rw [if_neg h1]
    by_cases h2 : c.toNat < 0x800
    · rw [if_pos h2]
      simp only [List.cons_append, List.nil_append]
      have hone : utf8DecodeOne (0xC0 + c.toNat / 64)
          ((0x80 + c.toNat % 64) :: rest) = some (c, 1) := by
        rw [utf8DecodeOne.eq_def, if_neg (by omega), if_neg (by omega),
          if_pos (by omega)]
        simp only [utf8Scalar2_encode c.toNat (by omega) h2, Option.map_some']
        rw [hofNat]
      simp only [utf8Decode, hone]
      simp
    · rw [if_neg h2]
      by_cases h3 : c.toNat < 0x10000
      · rw [if_pos h3]
        simp only [List.cons_append, List.nil_append]
        have hone : utf8DecodeOne (0xE0 + c.toNat / 4096)
            ((0x80 + c.toNat / 64 % 64) :: (0x80 + c.toNat % 64) :: rest) =
            some (c, 2) := by
          rw [utf8DecodeOne.eq_def, if_neg (by omega), if_neg (by omega),
            if_neg (by omega), if_pos (by omega)]
          simp only [utf8Scalar3_encode c.toNat (by omega) h3 (by omega),
            Option.map_some']
          rw [hofNat]
        simp only [utf8Decode, hone]
        simp
      · rw [if_neg h3]
        simp only [List.cons_append, List.nil_append]
        have hone : utf8DecodeOne (0xF0 + c.toNat / 262144)
            ((0x80 + c.toNat / 4096 % 64) :: (0x80 + c.toNat / 64 % 64) ::
              (0x80 + c.toNat % 64) :: rest) = some (c, 3) := by
          rw [utf8DecodeOne.eq_def, if_neg (by omega), if_neg (by omega),
            if_neg (by omega), if_neg (by omega), if_pos (by omega)]
          simp only [utf8Scalar4_encode c.toNat (by omega) (by omega),
            Option.map_some']
          rw [hofNat]
        simp only [utf8Decode, hone]
        simp

/-- UTF-8 decoding inverts UTF-8 encoding. -/
theorem utf8Decode_utf8Encode (s : List Char) :
    utf8Decode (utf8Encode s) = some s := by
  induction s with
  | nil => simp [utf8Encode, utf8Decode]
  | cons c cs ih =>
      rw [utf8Encode, List.flatMap_cons,
        show cs.flatMap (fun c => utf8EncodeScalar c.toNat) = utf8Encode cs from rfl,
        utf8Decode_encodeScalar_append, ih]
      rfl

end HAuth

namespace HAuth

/-- Splitting at the first colon after appending `":" ++ p` to a
colon-free prefix `u` recovers exactly `(u, p)`. -/
theorem splitOnFirstColon_append (u p : List Char) (hu : ':' ∉ u) :
    splitOnFirstColon (u ++ ':' :: p) = some (u, p) := by
  induction u with
  | nil => simp [splitOnFirstColon]
  | cons c cs ih =>
      have hc : ¬ c = ':' := fun hh => hu (by simp [hh])
      have hcs : ':' ∉ cs := fun hh => hu (List.mem_cons_of_mem c hh)
      simp only [List.cons_append, splitOnFirstColon, List.append_eq]
      rw [if_neg hc, ih hcs]
      simp

/-- A colon-free text does not split. -/
theorem splitOnFirstColon_eq_none (s : List Char) (h : ':' ∉ s) :
    splitOnFirstColon s = none := by
  induction s with
  | nil => simp [splitOnFirstColon]
  | cons c cs ih =>
      have hc : ¬ c = ':' := fun hh => h (by simp [hh])
      have hcs : ':' ∉ cs := fun hh => h (List.mem_cons_of_mem c hh)
      simp only [splitOnFirstColon]
      rw [if_neg hc, ih hcs]
      simp

/-- C3: for every username with no control characters and no colons
and every password with no control characters, parsing scheme
`"Basic"` with payload `base64(utf8(username ++ ":" ++ password))`
returns exactly `(username, password)`; the split point is the first
colon, so the password may itself contain colons and may be empty. -/
theorem basic_auth_creds_roundtrip (username password : String)
    (huCtl : ∀ c ∈ username.data, ¬ (c.toNat ≤ 0x1F ∨ c.toNat = 0x7F))
    (huColon : ':' ∉ username.data)
    (hpCtl : ∀ c ∈ password.data, ¬ (c.toNat ≤ 0x1F ∨ c.toNat = 0x7F)) :
    basic_auth_creds (some ("Basic",
      b64Encode (utf8Encode (username.data ++ ':' :: password.data)))) =
      some (username, password) := by
  have hb64 := b64Decode_b64Encode
    (utf8Encode (username.data ++ ':' :: password.data)) (utf8Encode_lt _)
  have hutf := utf8Decode_utf8Encode (username.data ++ ':' :: password.data)
  have hsplit := splitOnFirstColon_append username.data password.data huColon
  simp only [basic_auth_creds, hb64, hutf, hsplit, if_true]

/-- Witness for C3: username `"foo"`, password `"b:r"` (the password
itself containing a colon). -/
theorem basic_auth_creds_roundtrip_witness :
    (∀ c ∈ ("foo" : String).data, ¬ (c.toNat ≤ 0x1F ∨ c.toNat = 0x7F)) ∧
    ':' ∉ ("foo" : String).data ∧
    (∀ c ∈ ("b:r" : String).data, ¬ (c.toNat ≤ 0x1F ∨ c.toNat = 0x7F)) ∧
    basic_auth_creds (some ("Basic",
      b64Encode (utf8Encode (("foo" : String).data ++ ':' ::
        ("b:r" : String).data)))) = some ("foo", "b:r") :=
  ⟨by decide, by decide, by decide,
   basic_auth_creds_roundtrip "foo" "b:r" (by decide) (by decide) (by decide)⟩

/-- C4: `basic_auth_creds` returns absent — and, being a total
function, never raises — whenever the scheme is not exactly `"Basic"`,
the payload is not valid base64, the decoded bytes are not valid
UTF-8, or the decoded text contains no colon. -/
theorem basic_auth_creds_absent (authtype : String) (value : List Char)
    (h : authtype ≠ "Basic" ∨ b64Decode value = none ∨
      (∃ bytes, b64Decode value = some bytes ∧ utf8Decode bytes = none) ∨
      (∃ bytes chars, b64Decode value = some bytes ∧
        utf8Decode bytes = some chars ∧ ':' ∉ chars)) :
    basic_auth_creds (some (authtype, value)) = none := by
  by_cases hA : authtype = "Basic"
  · subst hA
    rcases h with h | h | ⟨bytes, h1, h2⟩ | ⟨bytes, chars, h1, h2, h3⟩
    · exact absurd rfl h
    · simp [basic_auth_creds, h]
    · simp [basic_auth_creds, h1, h2]
    · have hs := splitOnFirstColon_eq_none chars h3
      simp [basic_auth_creds, h1, h2, hs]
  · simp [basic_auth_creds, if_neg hA]

/-- Witness for C4 at the concrete scheme `"Digest"`. -/
theorem basic_auth_creds_absent_witness :
    (("Digest" : String) ≠ "Basic" ∨
      b64Decode ("Zm9v" : String).data = none ∨
      (∃ bytes, b64Decode ("Zm9v" : String).data = some bytes ∧
        utf8Decode bytes = none) ∨
      (∃ bytes chars, b64Decode ("Zm9v" : String).data = some bytes ∧
        utf8Decode bytes = some chars ∧ ':' ∉ chars)) ∧
    basic_auth_creds (some ("Digest", ("Zm9v" : String).data)) = none :=
  ⟨Or.inl (by decide),
   basic_auth_creds_absent "Digest" ("Zm9v" : String).data
     (Or.inl (by decide))⟩

end HAuth
